import Mathlib

/-!
# eToro scraper — extraction pipeline, embedded

Shallow embedding of the two scraper scripts' extraction pipeline:
`src/etoro_advanced_scraper.py` (regex-over-body-text backend) and the
XPath-based `EtoroInvestorScraper` variant.  Page text is `List Char` /
`String`; the browser session is an explicit parameter (element texts,
rendered body, navigation outcome); Python exceptions are `Except`;
Python `None` is `Option.none`; Python `float` values are modelled as
exact rationals (`ℚ`), which is faithful for the decimal tokens the
regexes produce.

Each fixed regular expression of the source is embedded as a
deterministic character-level function.  Every pattern in the source has
the property that after a greedy repetition fails, every backtracking
alternative also fails (the repeated character classes are disjoint from
the characters the continuation needs), so first-match `re.search` /
`re.findall` semantics reduce to the closed forms written here; each
derivation is noted at the definition.
-/

/-! ## Character classes (ASCII, as the source's patterns use them) -/

/-- Python regex `\d` (ASCII range relevant to the source pages). -/
def isDigitC (c : Char) : Bool := '0' ≤ c && c ≤ '9'

/-- Python regex `[A-Z]`. -/
def isUpperC (c : Char) : Bool := 'A' ≤ c && c ≤ 'Z'

/-- Python regex `\s`: space, tab, newline, carriage return, vertical
tab, form feed. -/
def isSpaceC (c : Char) : Bool :=
  c = ' ' || c = '\t' || c = '\n' || c = '\r' || c = Char.ofNat 11 || c = Char.ofNat 12

/-- Python regex `\w` (ASCII part): letters, digits, underscore. -/
def isWordC (c : Char) : Bool := c.isAlpha || isDigitC c || c = '_'

/-! ## Small matcher combinators -/

/-- One character of a two-element class such as `[Rr]`. -/
def expectCI (lo hi : Char) : List Char → Option (List Char)
  | c :: rest => if c = lo ∨ c = hi then some rest else none
  | [] => none

/-- A literal run of characters. -/
def expectLit (lit : List Char) (cs : List Char) : Option (List Char) :=
  if lit.isPrefixOf cs then some (cs.drop lit.length) else none

/-- Greedy `\s*`.  None of the source's patterns can recover by keeping
fewer whitespace characters (the continuation never matches whitespace),
so the maximal drop is exact. -/
def dropSpaces (cs : List Char) : List Char := cs.dropWhile isSpaceC

/-- A sequence of words of the shape `[Xx]yz\s*` — e.g.
`[Rr]isk\s*[Ss]core\s*` is `matchWords [('r','R',"isk"), ('s','S',"core")]`. -/
def matchWords (ws : List (Char × Char × String)) (cs : List Char) : Option (List Char) :=
  ws.foldlM (fun r w => ((expectCI w.1 w.2.1 r).bind (expectLit w.2.2.data)).map dropSpaces) cs

/-- Capture `[-+]?\d+(?:\.\d+)?%` (with `signs` the allowed sign
characters), returning the captured text and the rest.  Derivation: the
digit runs are maximal; if `%` is not found, giving digits back to the
repetitions only puts a digit where `%` or `.` is required, so the
position fails outright. -/
def signedPct (signs : List Char) (cs : List Char) : Option (List Char × List Char) :=
  let (sg, cs1) : List Char × List Char :=
    match cs with
    | c :: t => if c ∈ signs then ([c], t) else ([], cs)
    | [] => ([], cs)
  let d := cs1.takeWhile isDigitC
  if d.isEmpty then none else
  let r1 := cs1.drop d.length
  let (fr, r2) : List Char × List Char :=
    match r1 with
    | '.' :: t =>
      let f := t.takeWhile isDigitC
      if f.isEmpty then ([], r1) else ('.' :: f, t.drop f.length)
    | _ => ([], r1)
  match r2 with
  | '%' :: t => some (sg ++ d ++ fr ++ ['%'], t)
  | _ => none

/-- `re.search`-style scan: try the position matcher at every index, left
to right, and return the first success. -/
def searchPos {α : Type} (m : List Char → Option α) : List Char → Option α
  | [] => none
  | c :: rest => (m (c :: rest)).orElse (fun _ => searchPos m rest)

/-- Python `needle in hay` (substring test). -/
def containsSub (needle : List Char) : List Char → Bool
  | [] => needle.isEmpty
  | c :: rest => needle.isPrefixOf (c :: rest) || containsSub needle rest

/-! ## `extract_number` — src/etoro_advanced_scraper.py:102-107

`re.search(r'[-+]?\d*\.?\d+', text.replace(',', ''))`, then `float` of
the match.  Derivation of the position matcher: with `ds` the maximal
digit run, if a `.` followed by at least one digit comes next the match
is `ds ++ '.' :: fs` (`fs` the maximal run after the dot); otherwise
backtracking gives the final digit of `ds` to `\d+` and the match is
`ds` itself (nonempty required). -/

def numTail (cs : List Char) : Option (List Char) :=
  let ds := cs.takeWhile isDigitC
  let r := cs.drop ds.length
  match r with
  | '.' :: t =>
    let fs := t.takeWhile isDigitC
    if fs.isEmpty then (if ds.isEmpty then none else some ds)
    else some (ds ++ '.' :: fs)
  | _ => if ds.isEmpty then none else some ds

/-- The pattern `[-+]?\d*\.?\d+` at one position.  If a sign is present
but no number follows, dropping the sign leaves the sign character where
a digit or dot is required, so the position fails. -/
def matchNumAt (cs : List Char) : Option (List Char) :=
  match cs with
  | c :: rest => if c = '-' ∨ c = '+' then (numTail rest).map (c :: ·) else numTail cs
  | [] => none

def searchNum : List Char → Option (List Char) := searchPos matchNumAt

/-- `text.replace(',', '')`. -/
def stripCommas (cs : List Char) : List Char := cs.filter (fun c => c ≠ ',')

/-- Digit-string value (base 10). -/
def parseNat (ds : List Char) : ℕ := ds.foldl (fun a c => 10 * a + (c.toNat - 48)) 0

/-- Value of an unsigned matched token (`digits` or `digits.digits` or
`.digits`). -/
def unsignedVal (t : List Char) : ℚ :=
  let ip := t.takeWhile isDigitC
  let rest := t.drop ip.length
  match rest with
  | '.' :: f => (parseNat (ip ++ f) : ℚ) / 10 ^ f.length
  | _ => (parseNat ip : ℚ)

/-- `float(match.group())` on a token of the number pattern, modelled as
the exact decimal value. -/
def tokenVal (t : List Char) : ℚ :=
  match t with
  | '-' :: r => -(unsignedVal r)
  | '+' :: r => unsignedVal r
  | _ => unsignedVal t

/-- src/etoro_advanced_scraper.py:102-107 `extract_number`; `none` input
is Python `None`, and `not text` is true exactly for `None` and `""`. -/
def extract_number (t : Option String) : Option ℚ :=
  match t with
  | none => none
  | some s => if s.data.isEmpty then none else (searchNum (stripCommas s.data)).map tokenVal

/-! ## Profile patterns — src/etoro_advanced_scraper.py:168-180

Each entry of the `patterns` dict, as a first-match search.  The loop
(lines 177-180) binds `profile[key]` only when the pattern matches. -/

/-- `(\d+(?:,\d+)?)\s*[Cc]opiers` at one position.  Derivation: the digit
runs are maximal; if the optional `,digits` part or the literal fails,
every backtracking alternative puts a digit or a comma where `[Cc]` or
whitespace is required, so the position fails. -/
def matchCopiersAt (cs : List Char) : Option (List Char) :=
  let d1 := cs.takeWhile isDigitC
  if d1.isEmpty then none else
  let r1 := cs.drop d1.length
  let check (r : List Char) (grp : List Char) : Option (List Char) :=
    ((expectCI 'c' 'C' (dropSpaces r)).bind (expectLit "opiers".data)).map (fun _ => grp)
  match r1 with
  | ',' :: t =>
    let d2 := t.takeWhile isDigitC
    if d2.isEmpty then none else check (t.drop d2.length) (d1 ++ ',' :: d2)
  | _ => check r1 d1

/-- `\$?([\d,]+(?:\.\d+)?[KMB]?)\s*AUM` at one position (same
no-recovery derivation as above; an unconsumed `$` cannot start
`[\d,]+`, so the optional `$` is forced when present). -/
def matchAumAt (cs : List Char) : Option (List Char) :=
  let cs1 := match cs with | '$' :: t => t | _ => cs
  let d1 := cs1.takeWhile (fun c => isDigitC c || c = ',')
  if d1.isEmpty then none else
  let r1 := cs1.drop d1.length
  let (g2, r2) : List Char × List Char :=
    match r1 with
    | '.' :: t =>
      let f := t.takeWhile isDigitC
      if f.isEmpty then ([], r1) else ('.' :: f, t.drop f.length)
    | _ => ([], r1)
  let (g3, r3) : List Char × List Char :=
    match r2 with
    | c :: t => if c = 'K' ∨ c = 'M' ∨ c = 'B' then ([c], t) else ([], r2)
    | [] => ([], r2)
  (expectLit "AUM".data (dropSpaces r3)).map (fun _ => d1 ++ g2 ++ g3)

/-- `([-+]?\d+(?:\.\d+)?%)\s*[Gg]ain` at one position. -/
def matchGainAt (cs : List Char) : Option (List Char) :=
  (signedPct ['-', '+'] cs).bind fun gr =>
    ((expectCI 'g' 'G' (dropSpaces gr.2)).bind (expectLit "ain".data)).map (fun _ => gr.1)

/-- `[Rr]isk\s*[Ss]core\s*(\d+)` at one position. -/
def matchRiskAt (cs : List Char) : Option (List Char) :=
  (matchWords [('r', 'R', "isk"), ('s', 'S', "core")] cs).bind fun r =>
    let d := r.takeWhile isDigitC
    if d.isEmpty then none else some d

/-- `[Mm]ax\s*[Dd]rawdown\s*([-]?\d+(?:\.\d+)?%)` at one position. -/
def matchMaxDDAt (cs : List Char) : Option (List Char) :=
  (matchWords [('m', 'M', "ax"), ('d', 'D', "rawdown")] cs).bind fun r =>
    (signedPct ['-'] r).map (·.1)

/-- `[Ww]eekly\s*[Dd]rawdown\s*([-]?\d+(?:\.\d+)?%)` at one position. -/
def matchWeeklyDDAt (cs : List Char) : Option (List Char) :=
  (matchWords [('w', 'W', "eekly"), ('d', 'D', "rawdown")] cs).bind fun r =>
    (signedPct ['-'] r).map (·.1)

/-- The `patterns` dict of `get_profile_info`
(src/etoro_advanced_scraper.py:168-175), in source order. -/
def profile_patterns : List (String × (List Char → Option (List Char))) :=
  [("copiers", searchPos matchCopiersAt),
   ("aum", searchPos matchAumAt),
   ("gain", searchPos matchGainAt),
   ("risk_score", searchPos matchRiskAt),
   ("max_drawdown", searchPos matchMaxDDAt),
   ("weekly_dd", searchPos matchWeeklyDDAt)]

/-- The `for key, pattern in patterns.items(): if match:
profile[key] = match.group(1)` loop: unmatched keys are not added. -/
def extractPass (rules : List (String × (List Char → Option (List Char))))
    (body : List Char) : List (String × String) :=
  rules.filterMap fun kr => (kr.2 body).map (fun g => (kr.1, (⟨g⟩ : String)))

/-- src/etoro_advanced_scraper.py:158-194 `get_profile_info`, regex pass
(lines 177-180), with the rendered body text as input. -/
def get_profile_info (body : String) : List (String × String) :=
  extractPass profile_patterns body.data

/-! ## Performance stats — src/etoro_advanced_scraper.py:196-230 -/

/-- `[Tt]otal\s*[Gg]ain\s*([-+]?\d+(?:\.\d+)?%)` at one position. -/
def matchTotalGainAt (cs : List Char) : Option (List Char) :=
  (matchWords [('t', 'T', "otal"), ('g', 'G', "ain")] cs).bind fun r =>
    (signedPct ['-', '+'] r).map (·.1)

/-- `[Yy]early\s*[Rr]eturn\s*([-+]?\d+(?:\.\d+)?%)` at one position. -/
def matchYearlyAt (cs : List Char) : Option (List Char) :=
  (matchWords [('y', 'Y', "early"), ('r', 'R', "eturn")] cs).bind fun r =>
    (signedPct ['-', '+'] r).map (·.1)

/-- `[Mm]onthly\s*[Rr]eturn\s*([-+]?\d+(?:\.\d+)?%)` at one position. -/
def matchMonthlyAt (cs : List Char) : Option (List Char) :=
  (matchWords [('m', 'M', "onthly"), ('r', 'R', "eturn")] cs).bind fun r =>
    (signedPct ['-', '+'] r).map (·.1)

/-- `[Dd]aily\s*([-+]?\d+(?:\.\d+)?%)` at one position. -/
def matchDailyAt (cs : List Char) : Option (List Char) :=
  (matchWords [('d', 'D', "aily")] cs).bind fun r =>
    (signedPct ['-', '+'] r).map (·.1)

/-- The `metrics` dict of `get_performance_stats`
(src/etoro_advanced_scraper.py:213-218). -/
def performance_metrics : List (String × (List Char → Option (List Char))) :=
  [("total_gain", searchPos matchTotalGainAt),
   ("yearly_return", searchPos matchYearlyAt),
   ("monthly_return", searchPos matchMonthlyAt),
   ("daily_return", searchPos matchDailyAt)]

/-! ## Section navigation

src/etoro_advanced_scraper.py:203-208: `for tab in tabs: if "stat" in
tab.text.lower(): tab.click(); sleep; break` — case-insensitive
substring match, first matching element is activated.

src/unnamed/part_000:150-155 / 197-203: `find_element(By.XPATH,
"//button[contains(text(), 'Stats')]")` — XPath `contains` is a
case-sensitive literal substring match.  The first matching element is
clicked, or on `NoSuchElementException` the code proceeds. -/

/-- Advanced scraper tab test: `needle in tab.text.lower()`. -/
def tabMatchAdvanced (needle t : String) : Bool :=
  containsSub needle.data (t.data.map Char.toLower)

/-- XPath variant tab test: `contains(text(), needle)`, case-sensitive. -/
def tabMatchXPath (needle t : String) : Bool :=
  containsSub needle.data t.data

/-- The `for tab in tabs: if needle in tab.text.lower(): tab.click();
break` loop: index of the tab the advanced scraper clicks, if any. -/
def clickFirstAdvanced (needle : String) : List String → Option Nat
  | [] => none
  | t :: rest =>
    if tabMatchAdvanced needle t then some 0
    else (clickFirstAdvanced needle rest).map (· + 1)

/-- `find_element(By.XPATH, "//button[contains(text(), needle)]")`:
index of the first element the XPath variant clicks, if any. -/
def clickFirstXPath (needle : String) : List String → Option Nat
  | [] => none
  | t :: rest =>
    if tabMatchXPath needle t then some 0
    else (clickFirstXPath needle rest).map (· + 1)

/-- src/etoro_advanced_scraper.py:196-230 `get_performance_stats`.  The
page body is a function of whether the Stats tab was clicked (the click
plus settle delay changes the rendered text). -/
def get_performance_stats (tabs : List String) (body : Bool → String) :
    List (String × String) :=
  extractPass performance_metrics (body (clickFirstAdvanced "stat" tabs).isSome).data

/-! ## Portfolio — src/etoro_advanced_scraper.py:262-288

`re.findall(r'\$([A-Z]{1,5})\b', page_source)` then
`list(set(instruments))[:50]`.  Python `set` iteration order is not
specified (string hashing is randomized), so `list(set(...))` is
modelled as an arbitrary duplicate-free enumeration of the members,
supplied as the `setEnum` parameter and constrained by `IsSetList`. -/

/-- `\$([A-Z]{1,5})\b` at one position, returning the symbol and the
matched length.  Derivation: with `up` the maximal `[A-Z]` run after
`$`, `\b` holds after a shorter prefix of the run only if the next
character is not a word character, but every character of the run is —
so the match exists exactly when `1 ≤ |up| ≤ 5` and the character after
the run (if any) is not a word character. -/
def matchDollarAt : List Char → Option (String × Nat)
  | '$' :: rest =>
    let up := rest.takeWhile isUpperC
    if 1 ≤ up.length ∧ up.length ≤ 5 then
      match rest.drop up.length with
      | [] => some (⟨up⟩, 1 + up.length)
      | c :: _ => if isWordC c then none else some (⟨up⟩, 1 + up.length)
    else none
  | _ => none

/-- `re.findall` scan: non-overlapping matches, left to right; after a
match the scan resumes past it, otherwise it advances one character.
The fuel argument only bounds the recursion; every step consumes at
least one character, so `fuel = length` (used by the wrapper) is never
exhausted. -/
def findallDollarF : Nat → List Char → List String
  | 0, _ => []
  | _ + 1, [] => []
  | fuel + 1, c :: rest =>
    match matchDollarAt (c :: rest) with
    | some sn => sn.1 :: findallDollarF fuel (rest.drop (sn.2 - 1))
    | none => findallDollarF fuel rest

def findallDollar (cs : List Char) : List String := findallDollarF cs.length cs

/-- An enumeration of `list(set(l))`: duplicate-free, same members. -/
def IsSetList (l out : List String) : Prop :=
  out.Nodup ∧ ∀ x, x ∈ out ↔ x ∈ l

/-- src/etoro_advanced_scraper.py:262-288 `get_portfolio_data`: navigate
to the Portfolio tab (best effort), findall over the page source, then
`list(set(instruments))[:50]`. -/
def get_portfolio_data (tabs : List String) (src : Bool → String)
    (setEnum : List String → List String) : List String :=
  let clicked := (clickFirstAdvanced "portfolio" tabs).isSome
  (setEnum (findallDollar (src clicked).data)).take 50

/-! ## Open trades — src/etoro_advanced_scraper.py:290-309

`re.findall(r'(BUY|SELL)\s+([A-Z]{1,5})', body_text)` then a list of
`{action, symbol}` pairs. -/

/-- One alternation branch `act\s+([A-Z]{1,5})` at one position.
Derivation: the whitespace and uppercase runs are maximal (giving back
whitespace puts a space where `[A-Z]` is required); `{1,5}` greedy takes
at most five characters of the run with no trailing constraint. -/
def tryAct (act : List Char) (cs : List Char) : Option (String × String × Nat) :=
  if act.isPrefixOf cs then
    let r1 := cs.drop act.length
    let sp := r1.takeWhile isSpaceC
    if sp.isEmpty then none else
    let up := (r1.drop sp.length).takeWhile isUpperC
    if up.isEmpty then none else
    some (⟨act⟩, ⟨up.take 5⟩, act.length + sp.length + (up.take 5).length)
  else none

/-- `(BUY|SELL)\s+([A-Z]{1,5})` at one position (`BUY` tried first, as
in the alternation; the two literals share no prefix). -/
def matchTradeAt (cs : List Char) : Option (String × String × Nat) :=
  (tryAct "BUY".data cs).orElse (fun _ => tryAct "SELL".data cs)

/-- `re.findall` scan for the trade pattern (fuel as in
`findallDollarF`). -/
def scanTradesF : Nat → List Char → List (String × String)
  | 0, _ => []
  | _ + 1, [] => []
  | fuel + 1, c :: rest =>
    match matchTradeAt (c :: rest) with
    | some asn => (asn.1, asn.2.1) :: scanTradesF fuel (rest.drop (asn.2.2 - 1))
    | none => scanTradesF fuel rest

/-- src/etoro_advanced_scraper.py:290-309 `get_open_trades` on the
rendered body text: the list of `{'action': a, 'symbol': s}` pairs. -/
def get_open_trades (body : String) : List (String × String) :=
  scanTradesF body.data.length body.data

/-! ## Raw page capture — src/etoro_advanced_scraper.py:336-344 -/

/-- `get_raw_data`: on success a record with the first 5000 characters
of the body text and the current URL; on any fault (`except: return {}`)
the empty record.  The driver reads are the `Except` input. -/
def get_raw_data (res : Except String (String × String)) : List (String × String) :=
  match res with
  | .ok bu => [("page_text", (⟨bu.1.data.take 5000⟩ : String)), ("url", bu.2)]
  | .error _ => []

/-! ## XPath-variant profile pass — src/unnamed/part_000:105-138

`scrape_profile` looks up three elements; each lookup is wrapped in its
own `try/except` whose handler binds the literal `'N/A'`.  An element
lookup either yields the element's text or fails, so each is an
`Option String`. -/

def scrape_profile (nameEl copiersEl riskEl : Option String) : List (String × String) :=
  [("name", nameEl.getD "N/A"),
   ("copiers", copiersEl.getD "N/A"),
   ("risk_score", riskEl.getD "N/A")]

/-! ## Pipelines

src/unnamed/part_000:52-103 `scrape_investor` — `start_driver()` (line
67) and `driver.get(url)` (line 68) run BEFORE the
`try`/`except`/`finally` of lines 83-101, so a fault there propagates
with no record and with `close_driver()` never reached; once the `try`
block is entered, the four section passes run in order, any fault binds
`investor_data['error']` in `except`, and `finally` closes the driver.
src/etoro_advanced_scraper.py:109-156 `scrape_investor_complete` — no
`try/except/finally` anywhere: a fault during navigation propagates
before `close_driver()` is reached.  Driver calls are `Except` inputs
(`nav` stands for driver start plus navigation; the advanced variant's
section functions catch internally, so theirs are plain values);
`teardown` counts `driver.quit()` calls. -/

structure InvestorData where
  username : String
  url : String
  scraped_at : String
  profile : List (String × String)
  stats : List (String × String)
  portfolio : List String
  trade_history : List String
  error : Option String
deriving Repr, DecidableEq

def scrape_investor (username now : String) (nav : Except String Unit)
    (pr : Except String (List (String × String)))
    (st : Except String (List (String × String)))
    (pf : Except String (List String))
    (th : Except String (List String)) : Except String InvestorData × Nat :=
  match nav with
  | .error e => (.error e, 0)
  | .ok _ =>
    let base : InvestorData :=
      { username := username, url := "https://www.etoro.com/people/" ++ username,
        scraped_at := now, profile := [], stats := [], portfolio := [],
        trade_history := [], error := none }
    let d : InvestorData :=
      match pr with
      | .error e => { base with error := some e }
      | .ok p =>
        match st with
        | .error e => { base with profile := p, error := some e }
        | .ok s =>
          match pf with
          | .error e => { base with profile := p, stats := s, error := some e }
          | .ok f =>
            match th with
            | .error e =>
              { base with profile := p, stats := s, portfolio := f, error := some e }
            | .ok h =>
              { base with
                profile := p, stats := s, portfolio := f, trade_history := h }
    (.ok d, 1)

structure AdvancedData where
  username : String
  profile_url : String
  scraped_at : String
  profile_info : List (String × String)
  performance_stats : List (String × String)
  trading_stats : List (String × String)
  portfolio : List String
  open_trades : List (String × String)
  trade_history : List String
  raw_page_data : List (String × String)
deriving Repr, DecidableEq

/-- src/etoro_advanced_scraper.py:109-156.  `nav` is the
`driver.get(url)` call; on its fault the exception propagates (first
component `.error`) and `close_driver` was never called (second
component `0`).  The record has no error field of any kind. -/
def scrape_investor_complete (username now : String) (nav : Except String Unit)
    (prof perf trad : List (String × String)) (port : List String)
    (tr : List (String × String)) (hist : List String)
    (raw : List (String × String)) : Except String AdvancedData × Nat :=
  match nav with
  | .error e => (.error e, 0)
  | .ok _ =>
    (.ok { username := username,
           profile_url := "https://www.etoro.com/people/" ++ username,
           scraped_at := now, profile_info := prof, performance_stats := perf,
           trading_stats := trad, portfolio := port, open_trades := tr,
           trade_history := hist, raw_page_data := raw }, 1)

/-! ## Decimal rendering (for the idempotence property)

The source has no `extract_number_as_text`; the spec's idempotence
property refers to the text rendering of an extracted value. -/

/-- Base-10 digits of `n`, least significant first; structural fuel
(`fuel ≥ n` suffices since the value at least halves each step). -/
def digitsRev : Nat → Nat → List Nat
  | 0, _ => []
  | _, 0 => []
  | fuel + 1, n + 1 => ((n + 1) % 10) :: digitsRev fuel ((n + 1) / 10)

/-- Decimal digit characters of `n`, most significant first; `"0"` for
zero. -/
def natDigits (n : Nat) : List Char :=
  if n = 0 then ['0'] else ((digitsRev n n).map Nat.digitChar).reverse

/-- Left-pad with `'0'` to length `k`. -/
def padZeros (k : Nat) (ds : List Char) : List Char :=
  List.replicate (k - ds.length) '0' ++ ds

/-- Least `k` with `q.den ∣ 10 ^ k`, when one exists below the trivial
bound `q.den`; `0` otherwise. -/
def decExp (q : ℚ) : Nat :=
  match (List.range (q.den + 1)).find? (fun k => decide (q.den ∣ 10 ^ k)) with
  | some k => k
  | none => 0

/-- Modelled from the spec: the text rendering of an extracted number
(`extract_number_as_text`), which the source does not define.  For a
value with a finite decimal expansion it renders sign, integer digits,
decimal point and fraction digits, with at least one fraction digit —
the decimal text form that "round-trips through text formatting" (as
Python's `str` on a float renders e.g. `-3.5` and `3.0`). -/
def render_number (q : ℚ) : String :=
  ⟨(if (q * 10 ^ max (decExp q) 1).num < 0 then ['-'] else []) ++
    (natDigits ((q * 10 ^ max (decExp q) 1).num.natAbs / 10 ^ max (decExp q) 1)
      ++ '.' :: padZeros (max (decExp q) 1)
          (natDigits ((q * 10 ^ max (decExp q) 1).num.natAbs
            % 10 ^ max (decExp q) 1)))⟩

/-- A value with a finite decimal expansion — the spec's "values that
round-trip through text formatting". -/
def IsDecimal (q : ℚ) : Prop := ∃ (i : ℤ) (k : ℕ), q = (i : ℚ) / 10 ^ k

/-! ## Well-formed trade token lists (for the positional-pairing law) -/

/-- A trade pair as the regex tokenizes it: action `BUY`/`SELL`, symbol
one to five uppercase letters. -/
def WFTrade (p : String × String) : Prop :=
  (p.1 = "BUY" ∨ p.1 = "SELL") ∧ p.2.data ≠ [] ∧ p.2.data.length ≤ 5
    ∧ ∀ c ∈ p.2.data, isUpperC c = true

instance (p : String × String) : Decidable (WFTrade p) := by
  unfold WFTrade; infer_instance

/-- Page text consisting of the given action/symbol tokens separated by
single spaces, e.g. `renderTrades [(BUY, AAPL), (SELL, TSLA)]` is
`"BUY AAPL SELL TSLA"`. -/
def renderTrades : List (String × String) → List Char
  | [] => []
  | [p] => p.1.data ++ ' ' :: p.2.data
  | p :: q :: rest => p.1.data ++ ' ' :: (p.2.data ++ ' ' :: renderTrades (q :: rest))

/-! ## Concrete page texts for the portfolio properties -/

/-- A page source mentioning `$AAPL` three times. -/
def aaplText : String := "$AAPL up $AAPL down $AAPL"

/-- Fifty-one distinct symbols, in encounter order. -/
def sym51 : List String :=
  ["AA", "AB", "AC", "AD", "AE", "AF", "AG", "AH", "AI", "AJ", "AK", "AL", "AM", "AN", "AO", "AP", "AQ", "AR", "AS", "AT", "AU", "AV", "AW", "AX", "AY", "BA", "BB", "BC", "BD", "BE", "BF", "BG", "BH", "BI", "BJ", "BK", "BL", "BM", "BN", "BO", "BP", "BQ", "BR", "BS", "BT", "BU", "BV", "BW", "BX", "BY", "CA"]

/-- A page source containing the 51 distinct symbols of `sym51`, each
once, in that order. -/
def sym51text : String :=
  "$AA $AB $AC $AD $AE $AF $AG $AH $AI $AJ $AK $AL $AM $AN $AO $AP $AQ $AR $AS $AT $AU $AV $AW $AX $AY $BA $BB $BC $BD $BE $BF $BG $BH $BI $BJ $BK $BL $BM $BN $BO $BP $BQ $BR $BS $BT $BU $BV $BW $BX $BY $CA"


/-! # Helper lemmas -/

theorem takeWhile_eq_nil_of_head {p : Char → Bool} {cs : List Char}
    (h : ∀ c ∈ cs.take 1, p c = false) : cs.takeWhile p = [] := by
  cases cs with
  | nil => rfl
  | cons c t => simp [List.takeWhile_cons, h c (by simp)]

theorem takeWhile_append_all {p : Char → Bool} {xs : List Char} (ys : List Char)
    (hx : ∀ c ∈ xs, p c = true) :
    (xs ++ ys).takeWhile p = xs ++ ys.takeWhile p := by
  induction xs with
  | nil => rfl
  | cons x t ih =>
    simp only [List.cons_append, List.takeWhile_cons, hx x (by simp)]
    simp [ih fun c hc => hx c (by simp [hc])]

theorem takeWhile_all {p : Char → Bool} {xs : List Char}
    (hx : ∀ c ∈ xs, p c = true) : xs.takeWhile p = xs := by
  have := takeWhile_append_all (p := p) [] hx
  simpa using this

theorem drop_len_append {xs : List Char} (ys : List Char) {n : Nat}
    (h : xs.length = n) : (xs ++ ys).drop n = ys := by
  subst h; exact List.drop_left xs ys

theorem isPrefixOf_append_self (xs ys : List Char) :
    xs.isPrefixOf (xs ++ ys) = true := by
  induction xs with
  | nil => simp [List.isPrefixOf]
  | cons x t ih => simp [List.isPrefixOf, ih]

theorem space_not_upper {c : Char} (h : isSpaceC c = true) : isUpperC c = false := by
  simp only [isSpaceC, Bool.or_eq_true] at h
  rcases h with ((((h | h) | h) | h) | h) | h <;>
    simp only [decide_eq_true_eq] at h <;> subst h <;> decide

theorem upper_not_space {c : Char} (h : isUpperC c = true) : isSpaceC c = false := by
  cases hs : isSpaceC c with
  | false => rfl
  | true => rw [space_not_upper hs] at h; cases h

theorem digit_not_dot {c : Char} (h : isDigitC c = true) : c ≠ '.' := by
  rintro rfl; cases h

theorem digit_not_comma {c : Char} (h : isDigitC c = true) : c ≠ ',' := by
  rintro rfl; cases h

theorem digit_not_sign {c : Char} (h : isDigitC c = true) : c ≠ '-' ∧ c ≠ '+' := by
  constructor <;> rintro rfl <;> cases h

/-! # C10 — raw page capture -/

/-- C10: the raw-page capture record binds `page_text` to the first 5000
characters of the rendered body (a prefix, length at most 5000) and
`url` to the current URL; on any driver fault it returns the empty
record rather than raising. -/
theorem raw_data_bounded :
    ∀ (body url e : String),
      (get_raw_data (.ok (body, url))).lookup "page_text"
          = some (⟨body.data.take 5000⟩ : String)
      ∧ (get_raw_data (.ok (body, url))).lookup "url" = some url
      ∧ ((⟨body.data.take 5000⟩ : String)).length ≤ 5000
      ∧ (∃ t, body.data.take 5000 ++ t = body.data)
      ∧ get_raw_data (.error e) = [] := by
  intro body url e
  refine ⟨rfl, rfl, ?_, ⟨body.data.drop 5000, List.take_append_drop _ _⟩, rfl⟩
  show (body.data.take 5000).length ≤ 5000
  simp [List.length_take]

/-! # C2 — pipeline fault handling and teardown -/

/-- C2 counterexample: in `scrape_investor_complete`
(src/etoro_advanced_scraper.py:109-156, no `try/except/finally`) a fault
raised mid-pipeline propagates: no record is produced (in particular no
error-annotated partial record) and `close_driver` is never reached —
the teardown count is `0`, refuting "session teardown is attempted on
every execution path". -/
theorem advanced_fault_no_teardown :
    (scrape_investor_complete "thomaspj" "t0" (.error "session crashed")
        [] [] [] [] [] [] []).2 = 0
    ∧ (scrape_investor_complete "thomaspj" "t0" (.error "session crashed")
        [] [] [] [] [] [] []).1 = .error "session crashed" :=
  ⟨rfl, rfl⟩

/-- C2 amended: in the XPath variant's `scrape_investor`
(src/unnamed/part_000:52-103), a driver-start or navigation fault —
which occurs before the `try`/`finally` (lines 67-68) — propagates with
no record and no teardown, just as in `scrape_investor_complete`.  Once
the `try` block is entered, teardown is counted exactly once on every
path; a fault in a section pass yields a record with all earlier fields
populated, later fields at their initialized defaults, and the `error`
field set; a fault-free run has no `error` annotation. -/
theorem investor_fault_partial_record :
    ∀ (u now : String) (nav : Except String Unit)
      (pr st : Except String (List (String × String)))
      (pf th : Except String (List String)),
      (∀ e, nav = .error e →
          (scrape_investor u now nav pr st pf th).2 = 0
          ∧ (scrape_investor u now nav pr st pf th).1 = .error e)
      ∧ (nav = .ok () → (scrape_investor u now nav pr st pf th).2 = 1)
      ∧ (∀ p s e, nav = .ok () → pr = .ok p → st = .ok s → pf = .error e →
          ∃ d, (scrape_investor u now nav pr st pf th).1 = .ok d
          ∧ d.username = u ∧ d.profile = p ∧ d.stats = s
          ∧ d.portfolio = [] ∧ d.trade_history = [] ∧ d.error = some e)
      ∧ (∀ p s f h, nav = .ok () → pr = .ok p → st = .ok s → pf = .ok f →
          th = .ok h →
          ∃ d, (scrape_investor u now nav pr st pf th).1 = .ok d
          ∧ d.error = none) := by
  intro u now nav pr st pf th
  refine ⟨?_, ?_, ?_, ?_⟩
  · rintro e rfl
    exact ⟨rfl, rfl⟩
  · rintro rfl
    rfl
  · rintro p s e rfl rfl rfl rfl
    exact ⟨_, rfl, rfl, rfl, rfl, rfl, rfl, rfl⟩
  · rintro p s f h rfl rfl rfl rfl rfl
    exact ⟨_, rfl, rfl⟩

theorem investor_fault_partial_record_witness :
    (scrape_investor "thomaspj" "t0" (.error "nav crash") (.ok []) (.ok [])
        (.ok []) (.ok [])).2 = 0
    ∧ (scrape_investor "thomaspj" "t0" (.ok ()) (.ok [("name", "X")])
        (.ok [("total_gain", "5%")]) (.error "portfolio crash") (.ok [])).2 = 1
    ∧ (∃ d, (scrape_investor "thomaspj" "t0" (.ok ()) (.ok [("name", "X")])
        (.ok [("total_gain", "5%")]) (.error "portfolio crash") (.ok [])).1
          = .ok d
        ∧ d.profile = [("name", "X")] ∧ d.error = some "portfolio crash") := by
  have h0 := (investor_fault_partial_record "thomaspj" "t0" (.error "nav crash")
    (.ok []) (.ok []) (.ok []) (.ok [])).1 "nav crash" rfl
  have h := investor_fault_partial_record "thomaspj" "t0" (.ok ())
    (.ok [("name", "X")]) (.ok [("total_gain", "5%")])
    (.error "portfolio crash") (.ok [])
  obtain ⟨d, hd, _, hp, _, _, _, he⟩ := h.2.2.1 _ _ _ rfl rfl rfl rfl
  exact ⟨h0.1, h.2.1 rfl, d, hd, hp, he⟩

/-! # C1 — presence of unmatched fields -/

theorem extractPass_cons (r : String × (List Char → Option (List Char)))
    (rest : List (String × (List Char → Option (List Char)))) (body : List Char) :
    extractPass (r :: rest) body =
      match r.2 body with
      | some g => (r.1, (⟨g⟩ : String)) :: extractPass rest body
      | none => extractPass rest body := by
  cases hr : r.2 body <;> simp [extractPass, List.filterMap_cons, hr]

theorem lookup_cons_self (k : String) (v : String) (l : List (String × String)) :
    (((k, v) :: l).lookup k) = some v := by
  simp [List.lookup]

theorem lookup_cons_ne (k a : String) (v : String) (l : List (String × String))
    (h : a ≠ k) : (((k, v) :: l).lookup a) = l.lookup a := by
  simp [List.lookup, beq_false_of_ne h]

theorem extractPass_lookup_eq_none
    (rules : List (String × (List Char → Option (List Char))))
    (key : String) (body : List Char) (h : ∀ r ∈ rules, r.1 ≠ key) :
    (extractPass rules body).lookup key = none := by
  induction rules with
  | nil => rfl
  | cons r rest ih =>
    have hk : r.1 ≠ key := h r (by simp)
    have ih2 := ih fun x hx => h x (by simp [hx])
    rw [extractPass_cons]
    cases hr : r.2 body with
    | none => exact ih2
    | some g => rw [lookup_cons_ne _ _ _ _ (Ne.symm hk)]; exact ih2

theorem extractPass_lookup
    (rules : List (String × (List Char → Option (List Char))))
    (key : String) (m : List Char → Option (List Char)) (body : List Char)
    (hnd : (rules.map Prod.fst).Nodup) (hm : (key, m) ∈ rules) :
    (extractPass rules body).lookup key
      = (m body).map (fun g => ((⟨g⟩ : String))) := by
  induction rules with
  | nil => cases hm
  | cons r rest ih =>
    simp only [List.map_cons, List.nodup_cons] at hnd
    rw [extractPass_cons]
    rcases List.mem_cons.mp hm with heq | htail
    · have hr1 : r.1 = key := by rw [← heq]
      have hr2 : r.2 = m := by rw [← heq]
      subst hr1 hr2
      cases hr : r.2 body with
      | none =>
        simp only [Option.map_none]
        exact extractPass_lookup_eq_none rest r.1 body
          fun x hx hxe => hnd.1 (hxe ▸ List.mem_map_of_mem Prod.fst hx)
      | some g => exact lookup_cons_self _ _ _
    · have hkm : key ∈ rest.map Prod.fst := List.mem_map_of_mem Prod.fst htail
      have hkne : r.1 ≠ key := fun he => hnd.1 (he ▸ hkm)
      cases hr : r.2 body with
      | none => exact ih hnd.2 htail
      | some g => rw [lookup_cons_ne _ _ _ _ (Ne.symm hkne)]; exact ih hnd.2 htail

/-- C1 counterexample: in the regex-based extractor
(src/etoro_advanced_scraper.py:177-180) an unmatched rule's field is
omitted from the record — on a body with no numeric content the
`copiers` key is simply absent, not bound to an unavailable marker. -/
theorem profile_unmatched_field_omitted :
    (get_profile_info "eToro page with no numbers").lookup "copiers" = none
    ∧ (get_profile_info "eToro page with no numbers") = [] := by
  constructor <;> rfl

/-- C1 amended: no extraction pass ever raises (both passes are total
functions), but the two backends differ on unmatched fields: the
XPath-based `scrape_profile` (src/unnamed/part_000:110-131) always binds
all three of its keys, using the `'N/A'` marker for a missing element,
while the regex-based `get_profile_info` pass binds a key exactly when
its pattern matches and omits it otherwise. -/
theorem profile_fields_presence :
    (∀ nameEl copiersEl riskEl : Option String,
        (scrape_profile nameEl copiersEl riskEl).lookup "name"
            = some (nameEl.getD "N/A")
        ∧ (scrape_profile nameEl copiersEl riskEl).lookup "copiers"
            = some (copiersEl.getD "N/A")
        ∧ (scrape_profile nameEl copiersEl riskEl).lookup "risk_score"
            = some (riskEl.getD "N/A"))
    ∧ (∀ (key : String) (m : List Char → Option (List Char)) (body : String),
        (key, m) ∈ profile_patterns →
        (get_profile_info body).lookup key
          = (m body.data).map (fun g => ((⟨g⟩ : String)))) := by
  constructor
  · intro nameEl copiersEl riskEl
    refine ⟨rfl, ?_, ?_⟩ <;> simp [scrape_profile, List.lookup]
  · intro key m body hm
    exact extractPass_lookup profile_patterns key m body.data (by decide) hm

theorem profile_fields_presence_witness :
    (get_profile_info "Copiers absent here").lookup "risk_score"
      = ((searchPos matchRiskAt) "Copiers absent here".data).map
          (fun g => ((⟨g⟩ : String))) :=
  profile_fields_presence.2 "risk_score" (searchPos matchRiskAt)
    "Copiers absent here" (by simp [profile_patterns])

/-! # C8 — section navigator -/

/-- C8 counterexample: the two navigators do not share case-insensitive
matching — a button labelled `STATS` is matched by the advanced
scraper's lowercased test but not by the XPath variant's literal
`contains(text(), 'Stats')` — and a missing section does not yield an
empty extraction: with no matching tab, `get_performance_stats` still
parses the current page text and here returns a non-empty record. -/
theorem navigator_counterexample :
    tabMatchXPath "Stats" "STATS" = false
    ∧ tabMatchAdvanced "stat" "STATS" = true
    ∧ clickFirstAdvanced "stat" [] = none
    ∧ get_performance_stats [] (fun _ => "Total Gain 5%")
        = [("total_gain", "5%")] := by
  refine ⟨rfl, rfl, rfl, rfl⟩

/-- C8 amended: the advanced scraper's navigator matches the label
against each element's lowercased text (case-insensitively), activates
the first match, and when no element matches it proceeds without error —
but the downstream extraction then runs against the current (unclicked)
page text, so it is empty only when that text yields nothing.  The XPath
variant's navigator instead matches the literal label case-sensitively. -/
theorem navigator_amended :
    (∀ (tabs : List String) (body : Bool → String),
        clickFirstAdvanced "stat" tabs = none →
        get_performance_stats tabs body
          = extractPass performance_metrics (body false).data)
    ∧ (∀ (tabs : List String) (body : Bool → String) (i : Nat),
        clickFirstAdvanced "stat" tabs = some i →
        get_performance_stats tabs body
          = extractPass performance_metrics (body true).data)
    ∧ (∀ (needle t : String) (tabs : List String),
        clickFirstAdvanced needle (t :: tabs)
          = if containsSub needle.data (t.data.map Char.toLower) then some 0
            else (clickFirstAdvanced needle tabs).map (· + 1))
    ∧ (∀ (needle t : String) (tabs : List String),
        clickFirstXPath needle (t :: tabs)
          = if containsSub needle.data t.data then some 0
            else (clickFirstXPath needle tabs).map (· + 1)) := by
  refine ⟨?_, ?_, ?_, ?_⟩
  · intro tabs body h
    unfold get_performance_stats
    rw [h, Option.isSome_none]
  · intro tabs body i h
    rw [get_performance_stats, h, Option.isSome_some]
  · intro needle t tabs; rfl
  · intro needle t tabs; rfl

theorem navigator_amended_witness :
    get_performance_stats ["Feed", "STATS"]
        (fun b => if b then "Total Gain 7%" else "")
      = extractPass performance_metrics "Total Gain 7%".data := by
  have h := navigator_amended.2.1 ["Feed", "STATS"]
    (fun b => if b then "Total Gain 7%" else "") 1 (by rfl)
  simpa using h

/-! # C7 — risk-score rule -/

/-- C7 counterexample: containing the substring `"Risk Score 42"` does
not make the rule produce `"42"` — the rule returns the first match's
group, so an earlier occurrence of the pattern wins. -/
theorem risk_score_first_match_counterexample :
    containsSub "Risk Score 42".data "Risk Score 7 and Risk Score 42".data = true
    ∧ (get_profile_info "Risk Score 7 and Risk Score 42").lookup "risk_score"
        = some "7" := by
  refine ⟨rfl, rfl⟩

theorem matchRiskAt_not_r {c : Char} (rest : List Char)
    (h : c ≠ 'R' ∧ c ≠ 'r') : matchRiskAt (c :: rest) = none := by
  simp [matchRiskAt, matchWords, List.foldlM, expectCI, h.1, h.2]

/-- C7 amended: the rule produces `"42"` when the `"Risk Score 42"`
occurrence is the first match of the pattern and its digit group is
maximal — precisely, for every page text `pre ++ "Risk Score 42" ++ post`
where `pre` contains no `R`/`r` (so no earlier match can start) and
`post` does not begin with a further digit. -/
theorem risk_score_extracts_42 :
    ∀ pre post : List Char,
      (∀ c ∈ pre, c ≠ 'R' ∧ c ≠ 'r') →
      (∀ c ∈ post.take 1, isDigitC c = false) →
      searchPos matchRiskAt (pre ++ ("Risk Score 42".data ++ post))
        = some ['4', '2'] := by
  intro pre post hpre hpost
  induction pre with
  | nil =>
    have htw : post.takeWhile isDigitC = [] := takeWhile_eq_nil_of_head hpost
    have hm : matchRiskAt ("Risk Score 42".data ++ post)
        = some ('4' :: '2' :: post.takeWhile isDigitC) := rfl
    have hs : searchPos matchRiskAt ("Risk Score 42".data ++ post)
        = (matchRiskAt ("Risk Score 42".data ++ post)).orElse
            (fun _ => searchPos matchRiskAt ("isk Score 42".data ++ post)) := rfl
    rw [List.nil_append, hs, hm, htw]
    rfl
  | cons c pre ih =>
    have hc := hpre c (by simp)
    have ih2 := ih fun x hx => hpre x (by simp [hx])
    simp only [List.cons_append]
    show (matchRiskAt (c :: (pre ++ _))).orElse _ = some ['4', '2']
    rw [matchRiskAt_not_r _ hc]
    exact ih2

theorem risk_score_extracts_42_witness :
    searchPos matchRiskAt
        ("AUM 10 ".data ++ ("Risk Score 42".data ++ "% Gain".data))
      = some ['4', '2'] :=
  risk_score_extracts_42 "AUM 10 ".data "% Gain".data (by decide) (by decide)

/-! # C4 — extract_number -/

theorem numTail_def (cs : List Char) : numTail cs =
    match cs.drop (cs.takeWhile isDigitC).length with
    | '.' :: t =>
      if (t.takeWhile isDigitC).isEmpty = true then
        (if (cs.takeWhile isDigitC).isEmpty = true then none
         else some (cs.takeWhile isDigitC))
      else some (cs.takeWhile isDigitC ++ '.' :: t.takeWhile isDigitC)
    | _ =>
      if (cs.takeWhile isDigitC).isEmpty = true then none
      else some (cs.takeWhile isDigitC) := rfl

theorem numTail_none_of_no_digit {cs : List Char}
    (h : ∀ c ∈ cs, isDigitC c = false) : numTail cs = none := by
  have hds : cs.takeWhile isDigitC = [] := takeWhile_eq_nil_of_head
    fun c hc => h c (List.take_subset 1 cs hc)
  rw [numTail_def, hds]
  split
  next t heq =>
    rw [List.length_nil, List.drop_zero] at heq
    have hfs : List.takeWhile isDigitC t = [] := takeWhile_eq_nil_of_head
      (fun x hx => h x (heq ▸ List.mem_cons_of_mem _ (List.take_subset 1 t hx)))
    rw [hfs]
    rfl
  next => rfl

theorem numTail_isSome_of_ds {cs : List Char}
    (h : cs.takeWhile isDigitC ≠ []) : numTail cs ≠ none := by
  have hds : (cs.takeWhile isDigitC).isEmpty = false := by
    cases hh : cs.takeWhile isDigitC with
    | nil => exact absurd hh h
    | cons a b => rfl
  rw [numTail_def]
  split
  · rw [hds]
    split <;> simp
  · rw [hds]
    simp

theorem matchNumAt_digit_head {c : Char} {rest : List Char} :
    matchNumAt (c :: rest) = none → isDigitC c = false := by
  intro h
  cases hcc : isDigitC c with
  | false => rfl
  | true =>
    have hsg := digit_not_sign hcc
    have h2 : (if c = '-' ∨ c = '+' then (numTail rest).map (c :: ·)
        else numTail (c :: rest)) = none := h
    rw [if_neg (by rintro (h1 | h2); exact hsg.1 h1; exact hsg.2 h2)] at h2
    refine absurd h2 (numTail_isSome_of_ds ?_)
    rw [List.takeWhile_cons_of_pos hcc]
    simp

theorem searchNum_none_iff (cs : List Char) :
    searchNum cs = none ↔ ∀ c ∈ cs, isDigitC c = false := by
  induction cs with
  | nil => simp [searchNum, searchPos]
  | cons c rest ih =>
    constructor
    · intro h
      have hor : matchNumAt (c :: rest) = none ∧ searchPos matchNumAt rest = none := by
        have : (matchNumAt (c :: rest)).orElse (fun _ => searchPos matchNumAt rest)
            = none := h
        cases hm : matchNumAt (c :: rest) with
        | none => rw [hm] at this; exact ⟨rfl, this⟩
        | some g => rw [hm] at this; cases this
      intro x hx
      rcases List.mem_cons.mp hx with hxc | hxr
      · exact hxc ▸ matchNumAt_digit_head hor.1
      · exact (ih.mp hor.2) x hxr
    · intro h
      have hrest : ∀ x ∈ rest, isDigitC x = false := fun x hx => h x (by simp [hx])
      have hm : matchNumAt (c :: rest) = none := by
        show (if c = '-' ∨ c = '+' then (numTail rest).map (c :: ·)
            else numTail (c :: rest)) = none
        by_cases hsg : c = '-' ∨ c = '+'
        · rw [if_pos hsg, numTail_none_of_no_digit hrest]
          rfl
        · rw [if_neg hsg]
          exact numTail_none_of_no_digit h
      show (matchNumAt (c :: rest)).orElse (fun _ => searchPos matchNumAt rest) = none
      rw [hm]
      show searchPos matchNumAt rest = none
      exact ih.mpr hrest

/-- C4: `extract_number` strips commas first, then returns the parsed
value of the first signed decimal token of the stripped text, and
returns `None` exactly when the input is `None`/empty or no such token
exists — equivalently, when the stripped text contains no digit. -/
theorem extract_number_none_iff :
    extract_number none = none
    ∧ (∀ s : String, s.data ≠ [] →
        extract_number (some s) = (searchNum (stripCommas s.data)).map tokenVal)
    ∧ (∀ s : String,
        (extract_number (some s) = none ↔
          s.data = [] ∨ searchNum (stripCommas s.data) = none))
    ∧ (∀ cs : List Char, searchNum cs = none ↔ ∀ c ∈ cs, isDigitC c = false) := by
  refine ⟨rfl, ?_, ?_, searchNum_none_iff⟩
  · intro s hs
    show (if s.data.isEmpty = true then none
        else (searchNum (stripCommas s.data)).map tokenVal)
      = (searchNum (stripCommas s.data)).map tokenVal
    rw [if_neg (by simpa using hs)]
  · intro s
    show (if s.data.isEmpty = true then none
        else (searchNum (stripCommas s.data)).map tokenVal) = none ↔ _
    by_cases hs : s.data.isEmpty
    · simp [hs, List.isEmpty_iff.mp hs]
    · rw [if_neg hs]
      have hne : ¬s.data = [] := by simpa using hs
      simp [hne]

theorem extract_number_none_iff_witness :
    extract_number (some "no numbers, just words") = none :=
  (extract_number_none_iff.2.2.1 "no numbers, just words").mpr
    (Or.inr (by decide))

/-! # C9 — open-trades shape invariant -/

theorem tryAct_def (act cs : List Char) : tryAct act cs =
    if act.isPrefixOf cs then
      if ((cs.drop act.length).takeWhile isSpaceC).isEmpty = true then none
      else
        if (((cs.drop act.length).drop
              ((cs.drop act.length).takeWhile isSpaceC).length).takeWhile
                isUpperC).isEmpty = true then none
        else some ((⟨act⟩ : String),
          (⟨(((cs.drop act.length).drop
              ((cs.drop act.length).takeWhile isSpaceC).length).takeWhile
                isUpperC).take 5⟩ : String),
          act.length + ((cs.drop act.length).takeWhile isSpaceC).length
            + ((((cs.drop act.length).drop
                ((cs.drop act.length).takeWhile isSpaceC).length).takeWhile
                  isUpperC).take 5).length)
    else none := rfl

theorem tryAct_shape {act cs : List Char} {a s : String} {n : Nat}
    (h : tryAct act cs = some (a, s, n)) :
    a = (⟨act⟩ : String) ∧ s.data ≠ [] ∧ s.data.length ≤ 5
      ∧ (∀ c ∈ s.data, isUpperC c = true) := by
  rw [tryAct_def] at h
  split at h
  · split at h
    · cases h
    · split at h
      · cases h
      · rename_i hup
        simp only [Option.some.injEq, Prod.mk.injEq] at h
        obtain ⟨h1, h2, h3⟩ := h
        subst h2
        refine ⟨h1.symm, ?_, ?_, ?_⟩
        · show List.take 5 _ ≠ []
          revert hup
          cases ((cs.drop act.length).drop
              ((cs.drop act.length).takeWhile isSpaceC).length).takeWhile
                isUpperC with
          | nil => intro hup; exact absurd rfl hup
          | cons x xs => intro hup; simp
        · show (List.take 5 _).length ≤ 5
          rw [List.length_take]
          exact min_le_left _ _
        · intro c hc
          exact List.mem_takeWhile_imp (List.take_subset 5 _ hc)
  · cases h

theorem matchTradeAt_shape {cs : List Char} {a s : String} {n : Nat}
    (h : matchTradeAt cs = some (a, s, n)) :
    (a = "BUY" ∨ a = "SELL") ∧ s.data ≠ [] ∧ s.data.length ≤ 5
      ∧ (∀ c ∈ s.data, isUpperC c = true) := by
  unfold matchTradeAt at h
  cases hb : tryAct "BUY".data cs with
  | some v =>
    rw [hb] at h
    have hv := Option.some.inj (h : some v = some (a, s, n))
    subst hv
    have hsh := tryAct_shape hb
    exact ⟨Or.inl hsh.1, hsh.2⟩
  | none =>
    rw [hb] at h
    have hsh := tryAct_shape (h : tryAct "SELL".data cs = some (a, s, n))
    exact ⟨Or.inr hsh.1, hsh.2⟩

theorem scanTradesF_shape :
    ∀ (fuel : Nat) (cs : List Char) (p : String × String),
      p ∈ scanTradesF fuel cs →
      (p.1 = "BUY" ∨ p.1 = "SELL") ∧ p.2.data ≠ [] ∧ p.2.data.length ≤ 5
        ∧ (∀ c ∈ p.2.data, isUpperC c = true) := by
  intro fuel
  induction fuel with
  | zero => intro cs p hp; cases hp
  | succ f ih =>
    intro cs p hp
    cases cs with
    | nil => cases hp
    | cons c rest =>
      revert hp
      show p ∈ (match matchTradeAt (c :: rest) with
        | some asn => (asn.1, asn.2.1) :: scanTradesF f (rest.drop (asn.2.2 - 1))
        | none => scanTradesF f rest) → _
      cases hm : matchTradeAt (c :: rest) with
      | some asn =>
        intro hp
        rcases List.mem_cons.mp hp with hph | hpt
        · obtain ⟨a, s, n⟩ := asn
          have hs := matchTradeAt_shape hm
          subst hph
          exact hs
        · exact ih _ p hpt
      | none => intro hp; exact ih _ p hp

/-- C9: every element of the open-trades extraction has action `BUY` or
`SELL` and a symbol of one to five uppercase ASCII letters. -/
theorem open_trades_shape_invariant :
    ∀ (body : String) (p : String × String), p ∈ get_open_trades body →
      (p.1 = "BUY" ∨ p.1 = "SELL") ∧ p.2.data ≠ [] ∧ p.2.length ≤ 5
        ∧ (∀ c ∈ p.2.data, isUpperC c = true) := by
  intro body p hp
  have h := scanTradesF_shape body.data.length body.data p hp
  exact ⟨h.1, h.2.1, h.2.2.1, h.2.2.2⟩

theorem open_trades_shape_invariant_witness :
    ((("SELL", "TSLA") : String × String).1 = "BUY"
        ∨ (("SELL", "TSLA") : String × String).1 = "SELL")
    ∧ (("SELL", "TSLA") : String × String).2.data ≠ []
    ∧ (("SELL", "TSLA") : String × String).2.length ≤ 5
    ∧ (∀ c ∈ (("SELL", "TSLA") : String × String).2.data, isUpperC c = true) :=
  open_trades_shape_invariant "BUY AAPL SELL TSLA" ("SELL", "TSLA") (by decide)

/-! # C5 — positional pairing of open trades -/

theorem take_all_of_le {l : List Char} {n : Nat} (h : l.length ≤ n) : l.take n = l :=
  List.take_of_length_le h

theorem tryAct_render (act : List Char) (sym tail : List Char)
    (hs : sym ≠ []) (hlen : sym.length ≤ 5)
    (hup : ∀ c ∈ sym, isUpperC c = true)
    (htail : ∀ c ∈ tail.take 1, isUpperC c = false) :
    tryAct act (act ++ ' ' :: (sym ++ tail))
      = some ((⟨act⟩ : String), (⟨sym⟩ : String), act.length + 1 + sym.length) := by
  rw [tryAct_def, if_pos (isPrefixOf_append_self act _),
    drop_len_append (' ' :: (sym ++ tail)) rfl]
  have hsym1 : ∀ c ∈ (sym ++ tail).take 1, isSpaceC c = false := by
    cases sym with
    | nil => exact absurd rfl hs
    | cons x xs =>
      intro c hc
      simp only [List.cons_append, List.take_succ_cons, List.take_zero,
        List.mem_singleton] at hc
      rw [hc]
      exact upper_not_space (hup x (by simp))
  have hsp : (' ' :: (sym ++ tail)).takeWhile isSpaceC = [' '] := by
    rw [List.takeWhile_cons_of_pos (by decide), takeWhile_eq_nil_of_head hsym1]
  rw [hsp]
  have hd1 : (' ' :: (sym ++ tail)).drop [' '].length = sym ++ tail := rfl
  rw [hd1]
  have hupw : (sym ++ tail).takeWhile isUpperC = sym := by
    rw [takeWhile_append_all tail hup, takeWhile_eq_nil_of_head htail,
      List.append_nil]
  rw [hupw, take_all_of_le hlen]
  have hse : sym.isEmpty = false := by
    cases sym with
    | nil => exact absurd rfl hs
    | cons x xs => rfl
  rw [hse]
  simp

theorem matchTradeAt_render (a : String) (ha : a = "BUY" ∨ a = "SELL")
    (sym tail : List Char) (hs : sym ≠ []) (hlen : sym.length ≤ 5)
    (hup : ∀ c ∈ sym, isUpperC c = true)
    (htail : ∀ c ∈ tail.take 1, isUpperC c = false) :
    matchTradeAt (a.data ++ ' ' :: (sym ++ tail))
      = some (a, (⟨sym⟩ : String), a.data.length + 1 + sym.length) := by
  rcases ha with ha | ha <;> subst ha
  · show (tryAct "BUY".data ("BUY".data ++ ' ' :: (sym ++ tail))).orElse _ = _
    rw [tryAct_render "BUY".data sym tail hs hlen hup htail]
    rfl
  · show (tryAct "BUY".data ("SELL".data ++ ' ' :: (sym ++ tail))).orElse _ = _
    have hb : tryAct "BUY".data ("SELL".data ++ ' ' :: (sym ++ tail)) = none := by
      rw [tryAct_def, if_neg]
      intro hpre
      simp [List.isPrefixOf] at hpre
    rw [hb]
    show tryAct "SELL".data ("SELL".data ++ ' ' :: (sym ++ tail)) = _
    rw [tryAct_render "SELL".data sym tail hs hlen hup htail]

theorem matchTradeAt_space (u : List Char) : matchTradeAt (' ' :: u) = none := by
  show (tryAct "BUY".data (' ' :: u)).orElse (fun _ => tryAct "SELL".data (' ' :: u)) = none
  have h1 : tryAct "BUY".data (' ' :: u) = none := by
    rw [tryAct_def, if_neg]
    intro hpre
    simp [List.isPrefixOf] at hpre
  have h2 : tryAct "SELL".data (' ' :: u) = none := by
    rw [tryAct_def, if_neg]
    intro hpre
    simp [List.isPrefixOf] at hpre
  rw [h1, h2]
  rfl

theorem scanTradesF_nil : ∀ f : Nat, scanTradesF f [] = [] := by
  intro f; cases f <;> rfl

theorem scanTradesF_cons_match {c : Char} {cs' : List Char} {f : Nat}
    (a s : String) {n : Nat} (hm : matchTradeAt (c :: cs') = some (a, s, n)) :
    scanTradesF (f + 1) (c :: cs') = (a, s) :: scanTradesF f (cs'.drop (n - 1)) := by
  show (match matchTradeAt (c :: cs') with
    | some asn => (asn.1, asn.2.1) :: scanTradesF f (cs'.drop (asn.2.2 - 1))
    | none => scanTradesF f cs') = _
  rw [hm]

theorem scanTradesF_cons_none {c : Char} {cs' : List Char} {f : Nat}
    (hm : matchTradeAt (c :: cs') = none) :
    scanTradesF (f + 1) (c :: cs') = scanTradesF f cs' := by
  show (match matchTradeAt (c :: cs') with
    | some asn => (asn.1, asn.2.1) :: scanTradesF f (cs'.drop (asn.2.2 - 1))
    | none => scanTradesF f cs') = _
  rw [hm]

theorem scanTradesF_head (p : String × String) (tail : List Char) (f : Nat)
    (hact : p.1 = "BUY" ∨ p.1 = "SELL") (hs : p.2.data ≠ [])
    (hlen : p.2.data.length ≤ 5) (hup : ∀ c ∈ p.2.data, isUpperC c = true)
    (htail : ∀ c ∈ tail.take 1, isUpperC c = false) :
    scanTradesF (f + 1) (p.1.data ++ ' ' :: (p.2.data ++ tail))
      = (p.1, p.2) :: scanTradesF f tail := by
  have hm := matchTradeAt_render p.1 hact p.2.data tail hs hlen hup htail
  have heta : (⟨p.2.data⟩ : String) = p.2 := rfl
  rw [heta] at hm
  obtain ⟨c, cs', hfull⟩ : ∃ c cs',
      p.1.data ++ ' ' :: (p.2.data ++ tail) = c :: cs' := by
    rcases hact with h | h <;> rw [h] <;> exact ⟨_, _, rfl⟩
  rw [hfull] at hm ⊢
  rw [scanTradesF_cons_match p.1 p.2 hm]
  congr 1
  have h2 : (c :: cs').drop (p.1.data.length + 1 + p.2.data.length) = tail := by
    rw [← hfull]
    have h3 : p.1.data ++ ' ' :: (p.2.data ++ tail)
        = (p.1.data ++ ' ' :: p.2.data) ++ tail := by simp
    rw [h3]
    apply drop_len_append
    simp
    omega
  have h4 : (c :: cs').drop (p.1.data.length + 1 + p.2.data.length)
      = cs'.drop (p.1.data.length + 1 + p.2.data.length - 1) := by
    have h5 : p.1.data.length + 1 + p.2.data.length
        = (p.1.data.length + p.2.data.length) + 1 := by omega
    rw [h5, List.drop_succ_cons]
    congr 1
  rw [← h4, h2]

theorem scanTradesF_render :
    ∀ (ps : List (String × String)) (fuel : Nat),
      (∀ p ∈ ps, WFTrade p) → (renderTrades ps).length ≤ fuel →
      scanTradesF fuel (renderTrades ps) = ps := by
  intro ps
  induction ps with
  | nil => intro fuel _ _; exact scanTradesF_nil fuel
  | cons p rest ih =>
    intro fuel hwf hfuel
    obtain ⟨hact, hs, hlen, hup⟩ := hwf p (by simp)
    cases rest with
    | nil =>
      have hr : renderTrades [p] = p.1.data ++ ' ' :: (p.2.data ++ []) := by
        simp [renderTrades]
      rw [hr] at hfuel ⊢
      cases fuel with
      | zero =>
        exfalso
        have h1 : 0 < (p.1.data ++ ' ' :: (p.2.data ++ [])).length := by simp
        omega
      | succ f =>
        rw [scanTradesF_head p [] f hact hs hlen hup (by simp)]
        rw [scanTradesF_nil f]
    | cons q rest2 =>
      have hr : renderTrades (p :: q :: rest2)
          = p.1.data ++ ' ' :: (p.2.data ++ (' ' :: renderTrades (q :: rest2))) := by
        simp [renderTrades]
      rw [hr] at hfuel ⊢
      have hflen : (p.1.data ++ ' ' :: (p.2.data
            ++ (' ' :: renderTrades (q :: rest2)))).length
          = p.1.data.length + 1 + p.2.data.length + 1
            + (renderTrades (q :: rest2)).length := by
        simp
        omega
      rw [hflen] at hfuel
      cases fuel with
      | zero => exact absurd hfuel (by omega)
      | succ f =>
        rw [scanTradesF_head p _ f hact hs hlen hup
          (by intro c hc; simp at hc; rw [hc]; rfl)]
        congr 1
        cases f with
        | zero => exact absurd hfuel (by omega)
        | succ f2 =>
          rw [scanTradesF_cons_none (matchTradeAt_space _)]
          apply ih
          · intro x hx; exact hwf x (by simp [hx])
          · omega

/-- C5: open-trades extraction pairs each `BUY`/`SELL` token with the
immediately following uppercase symbol token, in encounter order: on any
page text made of well-formed action/symbol tokens separated by single
spaces, the extraction returns exactly that token list (in particular
`"BUY AAPL SELL TSLA"` yields `[(BUY, AAPL), (SELL, TSLA)]` — the
witness). -/
theorem open_trades_positional_pairing :
    ∀ ps : List (String × String), (∀ p ∈ ps, WFTrade p) →
      get_open_trades (⟨renderTrades ps⟩ : String) = ps := by
  intro ps hwf
  show scanTradesF (renderTrades ps).length (renderTrades ps) = ps
  exact scanTradesF_render ps _ hwf (le_refl _)

theorem open_trades_positional_pairing_witness :
    get_open_trades "BUY AAPL SELL TSLA" = [("BUY", "AAPL"), ("SELL", "TSLA")] :=
  open_trades_positional_pairing [("BUY", "AAPL"), ("SELL", "TSLA")] (by decide)

/-! # C3 — portfolio dedup, cap, and set order -/

theorem isSetList_dedup (l : List String) : IsSetList l l.dedup :=
  ⟨List.nodup_dedup l, fun _ => List.mem_dedup⟩

theorem isSetList_reverse {l : List String} (h : l.Nodup) : IsSetList l l.reverse :=
  ⟨List.nodup_reverse.mpr h, fun _ => List.mem_reverse⟩

theorem nodup_mem_singleton {out : List String} {a : String} (hnd : out.Nodup)
    (hm : ∀ x, x ∈ out ↔ x = a) : out = [a] := by
  cases out with
  | nil => exact absurd ((hm a).mpr rfl) (by simp)
  | cons b t =>
    have hb : b = a := (hm b).mp (by simp)
    subst hb
    have ht : t = [] := by
      rw [List.eq_nil_iff_forall_not_mem]
      intro x hx
      have hxa : x = b := (hm x).mp (by simp [hx])
      subst hxa
      exact (List.nodup_cons.mp hnd).1 hx
    rw [ht]

set_option maxRecDepth 10000

/-- C3 counterexample: `list(set(instruments))[:50]` does not drop the
51st distinct symbol in encounter order — which symbol is dropped
depends on the set's iteration order.  On a page with the 51 distinct
symbols of `sym51` (first `AA`, 51st `CA`, each appearing once), the
admissible reversed enumeration drops the FIRST encounter-order symbol
`AA` and keeps the 51st, `CA`. -/
theorem portfolio_drop_not_encounter_order :
    findallDollar sym51text.data = sym51
    ∧ sym51.Nodup
    ∧ sym51.length = 51
    ∧ IsSetList (findallDollar sym51text.data)
        ((findallDollar sym51text.data).reverse)
    ∧ sym51.head? = some "AA"
    ∧ "AA" ∉ get_portfolio_data [] (fun _ => sym51text) (fun l => l.reverse)
    ∧ "CA" ∈ get_portfolio_data [] (fun _ => sym51text) (fun l => l.reverse) := by
  refine ⟨by decide, by decide, by decide, ?_, by decide, by decide, by decide⟩
  exact isSetList_reverse (by decide)

/-- C3 amended: for every admissible enumeration of
`list(set(instruments))`, the portfolio result is duplicate-free, capped
at 50, and drawn from the matched symbols; a text with `$AAPL` three
times yields exactly `["AAPL"]`.  Which distinct symbol is dropped past
the cap is determined by the enumeration (set iteration) order, not by
encounter order. -/
theorem portfolio_dedup_cap :
    ∀ (tabs : List String) (src : Bool → String) (enum : List String → List String),
      IsSetList (findallDollar (src (clickFirstAdvanced "portfolio" tabs).isSome).data)
          (enum (findallDollar (src (clickFirstAdvanced "portfolio" tabs).isSome).data)) →
      (get_portfolio_data tabs src enum).Nodup
      ∧ (get_portfolio_data tabs src enum).length ≤ 50
      ∧ (∀ x ∈ get_portfolio_data tabs src enum,
          x ∈ findallDollar (src (clickFirstAdvanced "portfolio" tabs).isSome).data)
      ∧ (∀ enum2 : List String → List String,
          IsSetList (findallDollar aaplText.data)
            (enum2 (findallDollar aaplText.data)) →
          get_portfolio_data [] (fun _ => aaplText) enum2 = ["AAPL"]) := by
  intro tabs src enum h
  refine ⟨?_, ?_, ?_, ?_⟩
  · exact List.Nodup.sublist (List.take_sublist _ _) h.1
  · show ((enum (findallDollar
        (src (clickFirstAdvanced "portfolio" tabs).isSome).data)).take 50).length ≤ 50
    rw [List.length_take]
    exact min_le_left _ _
  · intro x hx
    exact (h.2 x).mp (List.take_subset _ _ hx)
  · intro enum2 h2
    have hf : findallDollar aaplText.data = ["AAPL", "AAPL", "AAPL"] := by decide
    have hout : enum2 (findallDollar aaplText.data) = ["AAPL"] := by
      apply nodup_mem_singleton h2.1
      intro x
      rw [h2.2 x, hf]
      simp
    show (enum2 (findallDollar aaplText.data)).take 50 = ["AAPL"]
    rw [hout]
    rfl

theorem portfolio_dedup_cap_witness :
    get_portfolio_data [] (fun _ => aaplText) (fun l => l.dedup) = ["AAPL"] :=
  (portfolio_dedup_cap [] (fun _ => aaplText) (fun l => l.dedup)
      (isSetList_dedup _)).2.2.2 (fun l => l.dedup) (isSetList_dedup _)

/-! # C6 — idempotence of numeric extraction -/

theorem foldl_digit (xs : List Char) :
    ∀ a : ℕ, xs.foldl (fun a c => 10 * a + (c.toNat - 48)) a
      = a * 10 ^ xs.length + parseNat xs := by
  induction xs with
  | nil => intro a; simp [parseNat]
  | cons x t ih =>
    intro a
    show t.foldl _ (10 * a + (x.toNat - 48)) = _
    rw [ih]
    have hp : parseNat (x :: t) = (x.toNat - 48) * 10 ^ t.length + parseNat t := by
      show t.foldl _ (10 * 0 + (x.toNat - 48)) = _
      rw [ih]
      norm_num
    rw [hp]
    simp [List.length_cons]
    ring

theorem parseNat_append (xs ys : List Char) :
    parseNat (xs ++ ys) = parseNat xs * 10 ^ ys.length + parseNat ys := by
  show (xs ++ ys).foldl _ 0 = _
  rw [List.foldl_append]
  exact foldl_digit ys _

theorem digitsRev_eq : ∀ (fuel n : ℕ), n ≤ fuel → digitsRev fuel n = Nat.digits 10 n := by
  intro fuel
  induction fuel with
  | zero =>
    intro n hn
    interval_cases n
    simp [digitsRev, Nat.digits_zero]
  | succ f ih =>
    intro n hn
    cases n with
    | zero => simp [digitsRev, Nat.digits_zero]
    | succ v =>
      show ((v + 1) % 10) :: digitsRev f ((v + 1) / 10) = _
      rw [Nat.digits_def' (by norm_num : (1:ℕ) < 10) (Nat.succ_pos v)]
      have hlt := Nat.div_lt_self (Nat.succ_pos v) (by norm_num : 1 < 10)
      rw [ih ((v + 1) / 10) (by omega)]

theorem parseNat_revMap : ∀ ds : List ℕ, (∀ d ∈ ds, d < 10) →
    parseNat ((ds.map Nat.digitChar).reverse) = Nat.ofDigits 10 ds := by
  intro ds
  induction ds with
  | nil => intro _; simp [parseNat, Nat.ofDigits_nil]
  | cons d rest ih =>
    intro h
    have hd : d < 10 := h d (by simp)
    have hrest := ih fun x hx => h x (by simp [hx])
    rw [List.map_cons, List.reverse_cons, parseNat_append, hrest]
    have hone : parseNat [Nat.digitChar d] = d := by
      show 10 * 0 + ((Nat.digitChar d).toNat - 48) = d
      interval_cases d <;> rfl
    rw [hone, Nat.ofDigits_cons]
    simp
    ring

theorem parseNat_natDigits (n : ℕ) : parseNat (natDigits n) = n := by
  by_cases hn : n = 0
  · subst hn; rfl
  · unfold natDigits
    rw [if_neg hn, digitsRev_eq n n (le_refl n)]
    rw [parseNat_revMap _ (fun d hd => Nat.digits_lt_base (by norm_num) hd)]
    exact Nat.ofDigits_digits 10 n

theorem natDigits_all_digit (n : ℕ) : ∀ c ∈ natDigits n, isDigitC c = true := by
  by_cases hn : n = 0
  · subst hn; intro c hc; simp [natDigits] at hc; subst hc; rfl
  · unfold natDigits
    rw [if_neg hn, digitsRev_eq n n (le_refl n)]
    intro c hc
    rw [List.mem_reverse] at hc
    obtain ⟨d, hd, hdc⟩ := List.mem_map.mp hc
    have hlt := Nat.digits_lt_base (by norm_num : (1:ℕ) < 10) hd
    subst hdc
    interval_cases d <;> rfl

theorem natDigits_ne_nil (n : ℕ) : natDigits n ≠ [] := by
  by_cases hn : n = 0
  · subst hn; simp [natDigits]
  · unfold natDigits
    rw [if_neg hn, digitsRev_eq n n (le_refl n)]
    intro hcon
    rw [List.reverse_eq_nil_iff, List.map_eq_nil_iff] at hcon
    exact hn (Nat.digits_eq_nil_iff_eq_zero.mp hcon)

theorem natDigits_len_le {n k : ℕ} (hk : 1 ≤ k) (h : n < 10 ^ k) :
    (natDigits n).length ≤ k := by
  by_cases hn : n = 0
  · subst hn; simpa [natDigits] using hk
  · unfold natDigits
    rw [if_neg hn, digitsRev_eq n n (le_refl n)]
    rw [List.length_reverse, List.length_map]
    rw [Nat.digits_len 10 n (by norm_num) hn]
    have := (Nat.lt_pow_iff_log_lt (by norm_num : 1 < 10) hn).mp h
    omega

theorem parseNat_replicate_zero (j : ℕ) : parseNat (List.replicate j '0') = 0 := by
  induction j with
  | zero => rfl
  | succ i ih =>
    rw [List.replicate_succ]
    have : parseNat ('0' :: List.replicate i '0')
        = parseNat ['0'] * 10 ^ i + parseNat (List.replicate i '0') := by
      have h2 := parseNat_append ['0'] (List.replicate i '0')
      simpa using h2
    rw [this, ih]
    have h0 : parseNat ['0'] = 0 := rfl
    rw [h0]
    ring

theorem parseNat_padZeros (k : ℕ) (ds : List Char) :
    parseNat (padZeros k ds) = parseNat ds := by
  unfold padZeros
  rw [parseNat_append, parseNat_replicate_zero]
  ring

theorem padZeros_length {k : ℕ} {ds : List Char} (h : ds.length ≤ k) :
    (padZeros k ds).length = k := by
  unfold padZeros
  rw [List.length_append, List.length_replicate]
  omega

theorem padZeros_all_digit {k : ℕ} {ds : List Char}
    (h : ∀ c ∈ ds, isDigitC c = true) : ∀ c ∈ padZeros k ds, isDigitC c = true := by
  intro c hc
  rcases List.mem_append.mp hc with hz | hd
  · rw [List.eq_of_mem_replicate hz]; rfl
  · exact h c hd

theorem den_dvd_pow {n k : ℕ} (hn : n ≠ 0) (h : n ∣ 10 ^ k) : n ∣ 10 ^ n := by
  rw [← Nat.factorization_le_iff_dvd hn (pow_ne_zero n (by norm_num))]
  have h1 := (Nat.factorization_le_iff_dvd hn (pow_ne_zero k (by norm_num))).mpr h
  rw [Finsupp.le_def] at h1 ⊢
  intro p
  have hpk := h1 p
  rw [Nat.factorization_pow, Finsupp.smul_apply] at hpk ⊢
  by_cases hz : (Nat.factorization 10) p = 0
  · rw [hz] at hpk ⊢
    simpa using hpk
  · have hfl := Nat.factorization_lt p hn
    have h10 : 1 ≤ (Nat.factorization 10) p := Nat.one_le_iff_ne_zero.mpr hz
    calc (Nat.factorization n) p ≤ n := le_of_lt hfl
      _ ≤ n * (Nat.factorization 10) p := Nat.le_mul_of_pos_right n h10
      _ = n • (Nat.factorization 10) p := rfl

theorem isDecimal_den_dvd {q : ℚ} (h : IsDecimal q) : ∃ k, q.den ∣ 10 ^ k := by
  obtain ⟨i, k, hq⟩ := h
  refine ⟨k, ?_⟩
  have hq2 : q = Rat.divInt i ((10 : ℤ) ^ k) := by
    rw [Rat.divInt_eq_div, hq]
    push_cast
    ring
  have hd := Rat.den_dvd i ((10 : ℤ) ^ k)
  rw [← hq2] at hd
  exact_mod_cast hd

theorem decExp_dvd {q : ℚ} (h : IsDecimal q) : q.den ∣ 10 ^ max (decExp q) 1 := by
  obtain ⟨k, hk⟩ := isDecimal_den_dvd h
  have hself : q.den ∣ 10 ^ q.den := den_dvd_pow q.den_nz hk
  have hfound : q.den ∣ 10 ^ decExp q := by
    unfold decExp
    cases hfind : (List.range (q.den + 1)).find? (fun k => decide (q.den ∣ 10 ^ k)) with
    | some k2 =>
      have := List.find?_some hfind
      exact of_decide_eq_true this
    | none =>
      exfalso
      have hmem : q.den ∈ List.range (q.den + 1) := by simp
      have := List.find?_eq_none.mp hfind q.den hmem
      exact this (decide_eq_true hself)
  exact dvd_trans hfound (pow_dvd_pow 10 (le_max_left _ _))

theorem render_number_def (q : ℚ) : render_number q =
    (⟨(if (q * 10 ^ max (decExp q) 1).num < 0 then ['-'] else []) ++
      (natDigits ((q * 10 ^ max (decExp q) 1).num.natAbs / 10 ^ max (decExp q) 1)
        ++ '.' :: padZeros (max (decExp q) 1)
            (natDigits ((q * 10 ^ max (decExp q) 1).num.natAbs
              % 10 ^ max (decExp q) 1)))⟩ : String) := by
  rfl

theorem takeWhile_digits_decimal {I F : List Char}
    (hId : ∀ c ∈ I, isDigitC c = true) :
    (I ++ '.' :: F).takeWhile isDigitC = I := by
  rw [takeWhile_append_all _ hId, List.takeWhile_cons_of_neg (by decide),
    List.append_nil]

theorem numTail_decimal {I F : List Char} (hId : ∀ c ∈ I, isDigitC c = true)
    (hFd : ∀ c ∈ F, isDigitC c = true) (hFne : F ≠ []) :
    numTail (I ++ '.' :: F) = some (I ++ '.' :: F) := by
  rw [numTail_def, takeWhile_digits_decimal hId]
  rw [drop_len_append ('.' :: F) rfl]
  show (if (F.takeWhile isDigitC).isEmpty = true
      then (if I.isEmpty = true then none else some I)
      else some (I ++ '.' :: F.takeWhile isDigitC)) = some (I ++ '.' :: F)
  rw [takeWhile_all hFd]
  have hFe : F.isEmpty = false := by
    cases F with
    | nil => exact absurd rfl hFne
    | cons x xs => rfl
  rw [hFe]
  rfl

theorem unsignedVal_decimal {I F : List Char} (hId : ∀ c ∈ I, isDigitC c = true) :
    unsignedVal (I ++ '.' :: F) = (parseNat (I ++ F) : ℚ) / 10 ^ F.length := by
  show (match (I ++ '.' :: F).drop ((I ++ '.' :: F).takeWhile isDigitC).length with
    | '.' :: f => (parseNat ((I ++ '.' :: F).takeWhile isDigitC ++ f) : ℚ) / 10 ^ f.length
    | _ => (parseNat ((I ++ '.' :: F).takeWhile isDigitC) : ℚ)) = _
  rw [takeWhile_digits_decimal hId, drop_len_append ('.' :: F) rfl]
  rfl

theorem extract_decimal_pos (I F : List Char) (hId : ∀ c ∈ I, isDigitC c = true)
    (hFd : ∀ c ∈ F, isDigitC c = true) (hIne : I ≠ []) (hFne : F ≠ []) :
    extract_number (some (⟨I ++ '.' :: F⟩ : String))
      = some ((parseNat (I ++ F) : ℚ) / 10 ^ F.length) := by
  obtain ⟨i0, I2, hI⟩ : ∃ i0 I2, I = i0 :: I2 := by
    cases I with
    | nil => exact absurd rfl hIne
    | cons a b => exact ⟨a, b, rfl⟩
  subst hI
  have hd0 : isDigitC i0 = true := hId i0 (by simp)
  have hns := digit_not_sign hd0
  have hnt := numTail_decimal hId hFd hFne
  simp only [List.cons_append] at hnt
  show (if ((i0 :: I2) ++ '.' :: F).isEmpty = true then none
      else (searchNum (stripCommas ((i0 :: I2) ++ '.' :: F))).map tokenVal)
    = some ((parseNat ((i0 :: I2) ++ F) : ℚ) / 10 ^ F.length)
  simp only [List.cons_append, List.isEmpty_cons, Bool.false_eq_true, if_false]
  have hstrip : stripCommas (i0 :: (I2 ++ '.' :: F)) = i0 :: (I2 ++ '.' :: F) := by
    apply List.filter_eq_self.mpr
    intro c hc
    have hcn : c ≠ ',' := by
      rcases List.mem_cons.mp hc with rfl | hc2
      · exact digit_not_comma hd0
      · rcases List.mem_append.mp hc2 with hcI | hcd
        · exact digit_not_comma (hId c (by simp [hcI]))
        · rcases List.mem_cons.mp hcd with rfl | hcF
          · decide
          · exact digit_not_comma (hFd c hcF)
    exact decide_eq_true hcn
  rw [hstrip]
  have hmm : matchNumAt (i0 :: (I2 ++ '.' :: F)) = some (i0 :: (I2 ++ '.' :: F)) := by
    show (if i0 = '-' ∨ i0 = '+' then (numTail (I2 ++ '.' :: F)).map (i0 :: ·)
        else numTail (i0 :: (I2 ++ '.' :: F))) = _
    rw [if_neg (by rintro (h | h); exact hns.1 h; exact hns.2 h)]
    exact hnt
  have hsearch : searchNum (i0 :: (I2 ++ '.' :: F)) = some (i0 :: (I2 ++ '.' :: F)) := by
    show (matchNumAt (i0 :: (I2 ++ '.' :: F))).orElse
        (fun _ => searchPos matchNumAt (I2 ++ '.' :: F)) = _
    rw [hmm]
    rfl
  rw [hsearch]
  have htok : tokenVal (i0 :: (I2 ++ '.' :: F))
      = unsignedVal (i0 :: (I2 ++ '.' :: F)) := by
    unfold tokenVal
    split
    · rename_i r heq
      injection heq with h1 h2
      exact absurd h1 hns.1
    · rename_i r heq
      injection heq with h1 h2
      exact absurd h1 hns.2
    · rfl
  have huv := unsignedVal_decimal (I := i0 :: I2) (F := F) hId
  simp only [List.cons_append] at huv
  show some (tokenVal (i0 :: (I2 ++ '.' :: F))) = _
  rw [htok, huv]

theorem extract_decimal_neg (I F : List Char) (hId : ∀ c ∈ I, isDigitC c = true)
    (hFd : ∀ c ∈ F, isDigitC c = true) (_hIne : I ≠ []) (hFne : F ≠ []) :
    extract_number (some (⟨'-' :: (I ++ '.' :: F)⟩ : String))
      = some (-((parseNat (I ++ F) : ℚ) / 10 ^ F.length)) := by
  have hnt := numTail_decimal hId hFd hFne
  show (if ('-' :: (I ++ '.' :: F)).isEmpty = true then none
      else (searchNum (stripCommas ('-' :: (I ++ '.' :: F)))).map tokenVal)
    = some (-((parseNat (I ++ F) : ℚ) / 10 ^ F.length))
  simp only [List.isEmpty_cons, Bool.false_eq_true, if_false]
  have hstrip : stripCommas ('-' :: (I ++ '.' :: F)) = '-' :: (I ++ '.' :: F) := by
    apply List.filter_eq_self.mpr
    intro c hc
    have hcn : c ≠ ',' := by
      rcases List.mem_cons.mp hc with rfl | hc2
      · decide
      · rcases List.mem_append.mp hc2 with hcI | hcd
        · exact digit_not_comma (hId c hcI)
        · rcases List.mem_cons.mp hcd with rfl | hcF
          · decide
          · exact digit_not_comma (hFd c hcF)
    exact decide_eq_true hcn
  rw [hstrip]
  have hmm : matchNumAt ('-' :: (I ++ '.' :: F)) = some ('-' :: (I ++ '.' :: F)) := by
    show (if '-' = '-' ∨ '-' = '+' then (numTail (I ++ '.' :: F)).map ('-' :: ·)
        else numTail ('-' :: (I ++ '.' :: F))) = _
    rw [if_pos (Or.inl rfl), hnt]
    rfl
  have hsearch : searchNum ('-' :: (I ++ '.' :: F)) = some ('-' :: (I ++ '.' :: F)) := by
    show (matchNumAt ('-' :: (I ++ '.' :: F))).orElse
        (fun _ => searchPos matchNumAt (I ++ '.' :: F)) = _
    rw [hmm]
    rfl
  rw [hsearch]
  have htok : tokenVal ('-' :: (I ++ '.' :: F)) = -(unsignedVal (I ++ '.' :: F)) := rfl
  show some (tokenVal ('-' :: (I ++ '.' :: F))) = _
  rw [htok, unsignedVal_decimal hId]

theorem extract_render {q : ℚ} (hd : IsDecimal q) :
    extract_number (some (render_number q)) = some q := by
  have hdvd : q.den ∣ 10 ^ max (decExp q) 1 := decExp_dvd hd
  have hrd := render_number_def q
  set K := max (decExp q) 1 with hK
  have hK1 : 1 ≤ K := le_max_right _ _
  set c := 10 ^ K / q.den with hc
  have hdc : q.den * c = 10 ^ K := Nat.mul_div_cancel' hdvd
  have hden0 : (q.den : ℚ) ≠ 0 := Nat.cast_ne_zero.mpr q.den_nz
  have h10 : ((10 : ℚ)) ^ K = (q.den : ℚ) * (c : ℚ) := by
    have hcast := congrArg (fun n : ℕ => (n : ℚ)) hdc
    push_cast at hcast
    exact hcast.symm
  have hql : q * 10 ^ K = ((q.num * (c : ℤ) : ℤ) : ℚ) := by
    rw [h10]
    calc q * ((q.den : ℚ) * c)
        = ((q.num : ℚ) / q.den) * ((q.den : ℚ) * c) := by rw [Rat.num_div_den]
      _ = (q.num : ℚ) * c := by field_simp; ring
      _ = ((q.num * (c : ℤ) : ℤ) : ℚ) := by push_cast; ring
  set m := (q * 10 ^ K).num with hm
  have hm2 : m = q.num * (c : ℤ) := by rw [hm, hql, Rat.intCast_num]
  have hmz : (m : ℚ) = q * 10 ^ K := by
    rw [hm2]
    exact hql.symm
  have hq : q = (m : ℚ) / 10 ^ K := by
    rw [hmz]
    field_simp
  set a := m.natAbs with ha
  set hi := a / 10 ^ K with hhi
  set lo := a % 10 ^ K with hlo
  have hlo_lt : lo < 10 ^ K := Nat.mod_lt a (by positivity)
  set I := natDigits hi with hI
  set F := padZeros K (natDigits lo) with hF
  have hId : ∀ ch ∈ I, isDigitC ch = true := natDigits_all_digit hi
  have hFd : ∀ ch ∈ F, isDigitC ch = true :=
    padZeros_all_digit (natDigits_all_digit lo)
  have hIne : I ≠ [] := natDigits_ne_nil hi
  have hFlen : F.length = K := padZeros_length (natDigits_len_le hK1 hlo_lt)
  have hFne : F ≠ [] := by
    intro hcon
    rw [hcon] at hFlen
    simp at hFlen
    omega
  have hPF : parseNat (I ++ F) = a := by
    rw [parseNat_append, hFlen, hI, parseNat_natDigits, hF, parseNat_padZeros,
      parseNat_natDigits, hhi, hlo]
    have hdm := Nat.div_add_mod a (10 ^ K)
    rw [Nat.mul_comm (10 ^ K) (a / 10 ^ K)] at hdm
    exact hdm
  rw [hrd]
  by_cases hneg : m < 0
  · rw [if_pos hneg]
    have hsingle : (['-'] : List Char) ++ (I ++ '.' :: F) = '-' :: (I ++ '.' :: F) := rfl
    rw [hsingle, extract_decimal_neg I F hId hFd hIne hFne]
    have hma : ((a : ℕ) : ℚ) = -((m : ℤ) : ℚ) := by
      have ha2 : a = m.natAbs := ha
      have haz : (a : ℤ) = -m := by omega
      exact_mod_cast congrArg (fun z : ℤ => (z : ℚ)) haz
    rw [hPF, hFlen, hma, hq]
    congr 1
    ring
  · rw [if_neg hneg]
    have hnil : ([] : List Char) ++ (I ++ '.' :: F) = I ++ '.' :: F := rfl
    rw [hnil, extract_decimal_pos I F hId hFd hIne hFne]
    have hma : ((a : ℕ) : ℚ) = ((m : ℤ) : ℚ) := by
      have ha2 : a = m.natAbs := ha
      have haz : (a : ℤ) = m := by omega
      exact_mod_cast congrArg (fun z : ℤ => (z : ℚ)) haz
    rw [hPF, hFlen, hma, hq]

/-- C6: numeric extraction is idempotent — for every input whose
extracted value round-trips through text formatting (has a finite
decimal expansion), re-extracting from the text rendering of the
extracted value yields the same result. -/
theorem extract_number_idempotent :
    ∀ (t : Option String) (v : ℚ), extract_number t = some v → IsDecimal v →
      extract_number (some (render_number v)) = extract_number t := by
  intro t v h hdec
  rw [h, extract_render hdec]

theorem extract_number_idempotent_witness :
    extract_number (some "1,234.5") = some ((2469 : ℚ) / 2)
    ∧ IsDecimal ((2469 : ℚ) / 2)
    ∧ extract_number (some (render_number ((2469 : ℚ) / 2)))
        = extract_number (some "1,234.5") := by
  have h1 : extract_number (some "1,234.5")
      = some (((12345 : ℕ) : ℚ) / 10 ^ (1 : ℕ)) := rfl
  have h2 : extract_number (some "1,234.5") = some ((2469 : ℚ) / 2) := by
    rw [h1]
    norm_num
  have hdec : IsDecimal ((2469 : ℚ) / 2) := ⟨12345, 1, by norm_num⟩
  exact ⟨h2, hdec, extract_number_idempotent (some "1,234.5") _ h2 hdec⟩

